import Mathlib

/-!
Verification development for solidity's `ControlFlowRevertPruner`
(libsolidity/analysis/ControlFlowRevertPruner.{h,cpp}).

The pass is embedded shallowly: the per-function control-flow graphs, the
revert-record store `m_functionReverts` and the two analysis passes are
translated into executable Lean definitions over `Nat` identifiers.  The
mutable pieces of C++ state (node `exits` lists, the record map) are threaded
explicitly through a `PrunerState`, and every assignment to a record's state
or to a node's `exits` list additionally appends an `Event` to an
instrumentation trace, so that invariants about the sequence of writes can be
stated and proved.

The mutually recursive C++ call structure
(`checkForReverts` / `traverseFunctionFlow` / breadth-first search) is made
total with an explicit fuel parameter; every recursive call strictly
decreases the fuel, and all concrete programs considered here are evaluated
with ample fuel.

Parts of the repository that the pass uses but whose sources are not under
`src/` are modelled from the specification and marked as such in their doc
comments: `util::BreadthFirstSearch` (libsolutil/Algorithms.h),
`FunctionDefinition::resolveVirtual` and `ContractDefinition::superContract`
(libsolidity/ast/AST.cpp).
-/

namespace RevertPruner

/-- Possible revert states of a function call (enum `RevertState` in
ControlFlowRevertPruner.h). -/
inductive RevertState
  | Pending
  | AllPathsRevert
  | HasNonRevertingPath
deriving DecidableEq, Repr

/-- Identifier of a `ContractDefinition`. -/
abbrev ContractId := Nat

/-- Identifier of a `FunctionDefinition`. -/
abbrev FuncId := Nat

/-- Identifier of a `CFGNode`. -/
abbrev NodeId := Nat

/-- Key of the `m_functionReverts` map: a contract pointer (null for free
functions) paired with a function definition, as produced by
`getNormalizedKey` or used raw in `removeRevertingPaths`. -/
abbrev RKey := Option ContractId × FuncId

/-- Dispatch kind annotation `requiredLookup` carried by a call expression. -/
inductive VirtualLookup
  | Static
  | Virtual
  | Super
deriving DecidableEq, Repr

/-- Shape of the call expression that `ResolveFunction` visits: a
`MemberAccess` (carrying its `requiredLookup`, and for super-calls the
contract denoted by `super`, when the expression's type has the expected
`TypeType`/`ContractType` shape) or an `Identifier`. -/
inductive CallExprShape
  | memberAccess (lookup : VirtualLookup) (superRef : Option ContractId)
  | identifier
deriving DecidableEq, Repr

/-- Data of one call site (`FunctionCall` AST node together with the
annotations `checkForReverts` reads from it): whether the annotated function
type has a declaration, the declared (unresolved) function definition, and
the expression shape used for virtual resolution. -/
structure CallSite where
  hasDeclaration : Bool
  declaration : FuncId
  expr : CallExprShape
deriving DecidableEq, Repr

/-- Static data of a `ContractDefinition` used by the pass. -/
structure ContractInfo where
  linearizedBaseContracts : List ContractId
  definedFunctions : List FuncId
  isLibrary : Bool
deriving DecidableEq, Repr

/-- Static data of a `FunctionDefinition` used by the pass: `isFree`,
the defining contract from `annotation().contract` (none for free
functions), and a signature identity used by override resolution. -/
structure FuncInfo where
  isFree : Bool
  contract : Option ContractId
  sig : Nat
deriving DecidableEq, Repr

/-- Per-function flow (`FunctionFlow`): entry node, exit node reached by
normally returning paths, and the revert sentinel node. -/
structure FunctionFlow where
  entry : NodeId
  exit : NodeId
  revert : NodeId
deriving DecidableEq, Repr

/-- Items visited by the AST traversal that drives the pass, in AST order:
contract definitions and (top-level) function definitions. -/
inductive DriverItem
  | contractItem (c : ContractId)
  | functionItem (f : FuncId)
deriving DecidableEq, Repr

/-- Static program: contracts, functions, the CFG (`m_cfg`) as a flow per
`(contract, function)` key together with the immutable per-node call lists
and the initial edge lists. -/
structure Prog where
  contracts : List (ContractId × ContractInfo)
  astOrder : List DriverItem
  funcs : FuncId → FuncInfo
  flowOf : RKey → FunctionFlow
  functionCalls : NodeId → List CallSite
  initExits : NodeId → List NodeId

/-- Static data of a contract, with a default for unknown identifiers. -/
def contractInfo (p : Prog) (c : ContractId) : ContractInfo :=
  match p.contracts.find? (fun x => x.1 = c) with
  | some x => x.2
  | none => ⟨[], [], false⟩

/-- Element that follows `x` in a list, if any. -/
def nextAfter (x : Nat) : List Nat → Option Nat
  | [] => none
  | a :: rest => if a = x then rest.head? else nextAfter x rest

/-- First function in the given contract list that has the same signature as
`f`, searching the contracts in order. -/
def findOverride (p : Prog) (f : FuncId) : List ContractId → Option FuncId
  | [] => none
  | c :: cs =>
    match (contractInfo p c).definedFunctions.find?
        (fun g => (p.funcs g).sig = (p.funcs f).sig) with
    | some g => some g
    | none => findOverride p f cs

/-- Modelled from the spec: `FunctionDefinition::resolveVirtual`
(libsolidity/ast/AST.cpp, not under src/).  Returns the most-derived
override of `f` reachable from the calling contract's linearized base list,
optionally starting the search at a given base contract (super-calls). -/
def resolveVirtual (p : Prog) (f : FuncId) (mostDerived : ContractId)
    (searchStart : Option ContractId) : Option FuncId :=
  let lin := (contractInfo p mostDerived).linearizedBaseContracts
  let lin :=
    match searchStart with
    | none => lin
    | some s => lin.dropWhile (fun c => ¬ c = s)
  findOverride p f lin

/-- Modelled from the spec: `ContractDefinition::superContract`
(libsolidity/ast/AST.cpp, not under src/).  Returns the contract following
`thisContract` in the linearization of `mostDerived`: the next base contract
after the calling contract. -/
def superContract (p : Prog) (thisContract : ContractId)
    (mostDerived : ContractId) : Option ContractId :=
  nextAfter thisContract (contractInfo p mostDerived).linearizedBaseContracts

/-- Embedding of `ResolveFunction::resolve` together with its two visit
methods: given the unresolved function definition carried by the call, the
contract from which the call is made and the call expression, return the
function definition that will actually be called.  `none` stands for the
paths on which the C++ code would fail an internal assertion (unexpected
lookup kind, missing contract context, malformed super expression) and leave
`m_functionDefinition` null. -/
def resolveFunction (p : Prog) (call : CallSite) (ctx : Option ContractId) :
    Option FuncId :=
  match call.expr with
  | .memberAccess .Super superRef =>
    match ctx, superRef with
    | some c, some sr =>
      match superContract p sr c with
      | some sc => resolveVirtual p call.declaration c (some sc)
      | none => none
    | _, _ => none
  | .memberAccess .Static _ => some call.declaration
  | .memberAccess .Virtual _ => none
  | .identifier =>
    match ctx with
    | some c => resolveVirtual p call.declaration c none
    | none => none

/-- Embedding of `ControlFlowRevertPruner::getNormalizedKey`: free function
keyed with a null contract, library function keyed with its defining library
contract, any other member function keyed with the calling contract. -/
def getNormalizedKey (p : Prog) (f : FuncId) (ctx : Option ContractId) :
    RKey :=
  if (p.funcs f).isFree then (none, f)
  else
    match (p.funcs f).contract with
    | some dc => if (contractInfo p dc).isLibrary then (some dc, f) else (ctx, f)
    | none => (ctx, f)

/-- Tag identifying which assignment in the source performed a state write:
the `Pending` initialization at the start of `removeRevertingPaths`, the
optimistic `AllPathsRevert` seed for a fresh record in `checkForReverts`,
the `Pending` downgrade in the probing callback of `checkForReverts`, the
`HasNonRevertingPath` write on visiting a non-tainted exit in
`traverseFunctionFlow`, and the `Pending` to `AllPathsRevert` promotion in
`removePendingPaths`. -/
inductive WriteTag
  | initPending
  | seedAllPaths
  | probeDowngrade
  | exitNonRevert
  | promotePending
deriving DecidableEq, Repr

/-- Instrumentation event: a write to a record's `state` (with the value the
record held before the write, `none` when the record was just created) or a
full replacement of a node's `exits` list, recorded together with the record
key on whose behalf the write happened. -/
inductive Event
  | stateWrite (tag : WriteTag) (k : RKey) (old : Option RevertState) (new : RevertState)
  | exitsWrite (k : RKey) (n : NodeId) (old new : List NodeId)
deriving DecidableEq, Repr

/-- Value stored in `m_functionReverts` for one key: the remembered
`pendingNode` (a null pointer initially) and the revert state. -/
structure RevertEntry where
  node : Option NodeId
  state : RevertState
deriving DecidableEq, Repr

/-- Strict order on record keys used to keep the store sorted the way the
C++ `std::map` iterates its keys. -/
def keyLt : RKey → RKey → Bool
  | (none, f), (none, g) => f < g
  | (none, _), (some _, _) => true
  | (some _, _), (none, _) => false
  | (some a, f), (some b, g) => a < b ∨ (a = b ∧ f < g)

/-- Mutable state threaded through the pass: the overlay of rewritten edge
lists over the initial CFG, the record store `m_functionReverts` (kept
sorted by `keyLt`), the instrumentation trace, and a flag set where the C++
code would fail an internal assertion. -/
structure PrunerState where
  exitsMap : List (NodeId × List NodeId)
  reverts : List (RKey × RevertEntry)
  trace : List Event
  internalError : Bool
deriving DecidableEq, Repr

/-- Initial state: no rewrites, empty store, empty trace. -/
def initSt : PrunerState := ⟨[], [], [], false⟩

/-- Current `exits` list of a node: the rewritten value if the node was
rewritten, the initial CFG edge list otherwise. -/
def getExits (p : Prog) (σ : PrunerState) (n : NodeId) : List NodeId :=
  match σ.exitsMap.find? (fun x => x.1 = n) with
  | some x => x.2
  | none => p.initExits n

/-- Record stored for a key, if present. -/
def lookupRevert (σ : PrunerState) (k : RKey) : Option RevertEntry :=
  match σ.reverts.find? (fun x => x.1 = k) with
  | some x => some x.2
  | none => none

/-- Current state of a key's record, `Pending` (the value a
default-constructed `RevertState` holds) if absent. -/
def stateD (σ : PrunerState) (k : RKey) : RevertState :=
  match lookupRevert σ k with
  | some e => e.state
  | none => .Pending

/-- Update of an association list entry in place. -/
def updateAssoc {α : Type} [DecidableEq α] {β : Type} (k : α) (v : β) :
    List (α × β) → List (α × β)
  | [] => []
  | (a, b) :: rest =>
    if a = k then (a, v) :: rest else (a, b) :: updateAssoc k v rest

/-- Insertion of a fresh key into the sorted store. -/
def insertSorted (k : RKey) (v : RevertEntry) :
    List (RKey × RevertEntry) → List (RKey × RevertEntry)
  | [] => [(k, v)]
  | (a, b) :: rest =>
    if keyLt k a then (k, v) :: (a, b) :: rest
    else (a, b) :: insertSorted k v rest

/-- Write of a record's `state` field (creating the record if absent, as the
C++ `operator[]` does), recording the write in the trace. -/
def setState (tag : WriteTag) (k : RKey) (s : RevertState) (σ : PrunerState) :
    PrunerState :=
  match lookupRevert σ k with
  | some e =>
    { σ with
      reverts := updateAssoc k { e with state := s } σ.reverts,
      trace := σ.trace ++ [.stateWrite tag k (some e.state) s] }
  | none =>
    { σ with
      reverts := insertSorted k ⟨none, s⟩ σ.reverts,
      trace := σ.trace ++ [.stateWrite tag k none s] }

/-- Write of a record's remembered `pendingNode` (creating the record if
absent, as the C++ `operator[]` does). -/
def setPendingNode (k : RKey) (n : NodeId) (σ : PrunerState) : PrunerState :=
  match lookupRevert σ k with
  | some e => { σ with reverts := updateAssoc k { e with node := some n } σ.reverts }
  | none => { σ with reverts := insertSorted k ⟨some n, .Pending⟩ σ.reverts }

/-- Record creation performed silently by `operator[]` when a key is first
accessed without being assigned: null node, default `Pending` state. -/
def ensureRecord (k : RKey) (σ : PrunerState) : PrunerState :=
  match lookupRevert σ k with
  | some _ => σ
  | none => { σ with reverts := insertSorted k ⟨none, .Pending⟩ σ.reverts }

/-- Full replacement of a node's `exits` by the given list
(`exits.clear(); exits.push_back(...)` in the source), recording the old and
new edge lists and the record key on whose behalf the rewrite happened. -/
def rewriteExits (p : Prog) (k : RKey) (n : NodeId) (new : List NodeId)
    (σ : PrunerState) : PrunerState :=
  let old := getExits p σ n
  let m :=
    match σ.exitsMap.find? (fun x => x.1 = n) with
    | some _ => updateAssoc n new σ.exitsMap
    | none => (n, new) :: σ.exitsMap
  { σ with exitsMap := m, trace := σ.trace ++ [.exitsWrite k n old new] }

/-- Traversal policy: the `_onRevertState` callback passed to
`traverseFunctionFlow`.  `prune k` is the callback of
`removeRevertingPaths` (rewrite on `AllPathsRevert`, remember the node on
`Pending`, for the record with raw key `k`); `probe k` is the callback of
`checkForReverts` (stop the node on `AllPathsRevert`, downgrade the probed
record `k` on `Pending`). -/
inductive TraversePolicy
  | prune (k : RKey)
  | probe (k : RKey)
deriving DecidableEq, Repr

/-- One invocation of the `_onRevertState` callback: returns whether
processing of the node continues, and the updated state. -/
def applyPolicy (p : Prog) (pol : TraversePolicy) (st : RevertState)
    (n : NodeId) (flow : FunctionFlow) (σ : PrunerState) :
    Bool × PrunerState :=
  match pol with
  | .prune k =>
    match st with
    | .AllPathsRevert => (true, rewriteExits p k n [flow.revert] σ)
    | .Pending => (true, setPendingNode k n σ)
    | .HasNonRevertingPath => (true, σ)
  | .probe k =>
    match st with
    | .AllPathsRevert => (false, σ)
    | .Pending => (true, setState .probeDowngrade k .Pending σ)
    | .HasNonRevertingPath => (true, σ)

/-- List insertion without duplication, used for the `std::set` members of
the breadth-first search. -/
def insertNode (n : NodeId) (l : List NodeId) : List NodeId :=
  if n ∈ l then l else n :: l

mutual

/-- Embedding of `ControlFlowRevertPruner::checkForReverts`: return
`HasNonRevertingPath` when the call's function type has no declaration,
resolve the call, return a memoized record's state, and otherwise create the
record with an optimistic `AllPathsRevert` seed and traverse the callee's
flow with the probing policy.  The `none` result of `resolveFunction` stands
for a failed `solAssert`; the C++ aborts there, performing no further state
mutation. -/
def checkForReverts (fuel : Nat) (p : Prog) (call : CallSite)
    (ctx : Option ContractId) (σ : PrunerState) : RevertState × PrunerState :=
  if call.hasDeclaration = false then (.HasNonRevertingPath, σ)
  else
    match fuel with
    | 0 => (.Pending, σ)
    | fuel + 1 =>
      match resolveFunction p call ctx with
      | none => (.HasNonRevertingPath, { σ with internalError := true })
      | some fd =>
        let k := getNormalizedKey p fd ctx
        match lookupRevert σ k with
        | some e => (e.state, σ)
        | none =>
          let σ1 := setState .seedAllPaths k .AllPathsRevert σ
          traverseFunctionFlow fuel p fd ctx (p.flowOf k) (.probe k) σ1

/-- Embedding of `ControlFlowRevertPruner::traverseFunctionFlow`: run the
breadth-first walk from the flow's entry with an empty pending-taint set and
return the state the traversed function's normalized record holds
afterwards. -/
def traverseFunctionFlow (fuel : Nat) (p : Prog) (f : FuncId)
    (ctx : Option ContractId) (flow : FunctionFlow) (pol : TraversePolicy)
    (σ : PrunerState) : RevertState × PrunerState :=
  match fuel with
  | 0 => (stateD σ (getNormalizedKey p f ctx), σ)
  | fuel + 1 =>
    let k := getNormalizedKey p f ctx
    let σ1 := ensureRecord k σ
    let σ2 := bfsStep fuel p ctx flow pol k [flow.entry] [] [] σ1
    (stateD σ2 k, σ2)

/-- Modelled from the spec: breadth-first traversal
(`util::BreadthFirstSearch` of libsolutil/Algorithms.h, not under src/) of
the flow, with a FIFO worklist and a visited set, running the loop body of
`traverseFunctionFlow` on each node: a non-tainted visit of the exit node
records `HasNonRevertingPath` and expands no children; otherwise the node's
calls are processed and, unless the policy stopped the node, the node's
current `exits` are enqueued, tainted when the node is tainted. -/
def bfsStep (fuel : Nat) (p : Prog) (ctx : Option ContractId)
    (flow : FunctionFlow) (pol : TraversePolicy) (k : RKey)
    (queue visited pendingNodes : List NodeId) (σ : PrunerState) :
    PrunerState :=
  match fuel with
  | 0 => σ
  | fuel + 1 =>
    match queue with
    | [] => σ
    | n :: rest =>
      if n ∈ visited then bfsStep fuel p ctx flow pol k rest visited pendingNodes σ
      else
        let visited1 := insertNode n visited
        let pending := n ∈ pendingNodes
        if n = flow.exit then
          let σ1 :=
            if pending then σ
            else setState .exitNonRevert k .HasNonRevertingPath σ
          bfsStep fuel p ctx flow pol k rest visited1 pendingNodes σ1
        else
          let r := processCalls fuel p ctx flow pol n (p.functionCalls n)
            pending pendingNodes σ
          if r.1 then
            bfsStep fuel p ctx flow pol k rest visited1 r.2.2.1 r.2.2.2
          else
            let children := getExits p r.2.2.2 n
            let pendingNodes2 :=
              if r.2.1 then
                children.foldl (fun acc c => insertNode c acc) r.2.2.1
              else r.2.2.1
            bfsStep fuel p ctx flow pol k (rest ++ children) visited1
              pendingNodes2 r.2.2.2

/-- Loop over a node's `functionCalls` from the body of
`traverseFunctionFlow`: check each call, run the policy callback (first
component `true` when the callback stopped processing of the node), and
taint the node on a `Pending` result. -/
def processCalls (fuel : Nat) (p : Prog) (ctx : Option ContractId)
    (flow : FunctionFlow) (pol : TraversePolicy) (n : NodeId)
    (calls : List CallSite) (pending : Bool) (pendingNodes : List NodeId)
    (σ : PrunerState) : Bool × Bool × List NodeId × PrunerState :=
  match fuel with
  | 0 => (false, pending, pendingNodes, σ)
  | fuel + 1 =>
    match calls with
    | [] => (false, pending, pendingNodes, σ)
    | c :: cs =>
      let r := checkForReverts fuel p c ctx σ
      let a := applyPolicy p pol r.1 n flow r.2
      if a.1 = false then (true, pending, pendingNodes, a.2)
      else
        let pending1 := if r.1 = .Pending then true else pending
        let pendingNodes1 :=
          if r.1 = .Pending then insertNode n pendingNodes else pendingNodes
        processCalls fuel p ctx flow pol n cs pending1 pendingNodes1 a.2

end

/-- Embedding of `ControlFlowRevertPruner::removeRevertingPaths`: set the
raw-keyed record to `Pending` and traverse the function's flow with the
pruning policy. -/
def removeRevertingPaths (fuel : Nat) (p : Prog) (f : FuncId)
    (ctx : Option ContractId) (σ : PrunerState) : PrunerState :=
  let rawKey : RKey := (ctx, f)
  let σ1 := setState .initPending rawKey .Pending σ
  (traverseFunctionFlow fuel p f ctx (p.flowOf rawKey) (.prune rawKey) σ1).2

/-- Driver loop over one contract's defined functions
(`visit(ContractDefinition)` inner loop). -/
def processFunctions (fuel : Nat) (p : Prog) (ctx : ContractId) :
    List FuncId → PrunerState → PrunerState
  | [], σ => σ
  | f :: fs, σ =>
    processFunctions fuel p ctx fs (removeRevertingPaths fuel p f (some ctx) σ)

/-- Driver loop over a contract's linearized base contracts
(`visit(ContractDefinition)` outer loop). -/
def processBases (fuel : Nat) (p : Prog) (ctx : ContractId) :
    List ContractId → PrunerState → PrunerState
  | [], σ => σ
  | c :: cs, σ =>
    processBases fuel p ctx cs
      (processFunctions fuel p ctx (contractInfo p c).definedFunctions σ)

/-- One AST item visited by the driver: a contract definition analyzes every
function along its linearized base chain under that contract's context; a
free function is analyzed under the null context. -/
def visitItem (fuel : Nat) (p : Prog) (σ : PrunerState) :
    DriverItem → PrunerState
  | .contractItem c =>
    processBases fuel p c (contractInfo p c).linearizedBaseContracts σ
  | .functionItem f =>
    if (p.funcs f).isFree then removeRevertingPaths fuel p f none σ else σ

/-- AST traversal of `run`'s first iteration (`_astRoot.accept(*this)`). -/
def runDriver (fuel : Nat) (p : Prog) :
    List DriverItem → PrunerState → PrunerState
  | [], σ => σ
  | it :: rest, σ => runDriver fuel p rest (visitItem fuel p σ it)

/-- Loop over a remembered node's `functionCalls` in `removePendingPaths`:
a call checking `AllPathsRevert` or `Pending` replaces the node's exits by
the revert sentinel of the key's flow. -/
def finalizeNode (fuel : Nat) (p : Prog) (k : RKey) (flow : FunctionFlow)
    (n : NodeId) : List CallSite → PrunerState → PrunerState
  | [], σ => σ
  | c :: cs, σ =>
    match checkForReverts fuel p c k.1 σ with
    | (rv, σ1) =>
      let σ2 :=
        match rv with
        | .AllPathsRevert => rewriteExits p k n [flow.revert] σ1
        | .Pending => rewriteExits p k n [flow.revert] σ1
        | .HasNonRevertingPath => σ1
      finalizeNode fuel p k flow n cs σ2

/-- Processing of one store entry's remembered node in
`removePendingPaths`: if the entry exists and remembers a node, run
`finalizeNode` over that node's calls. -/
def finalizeEntry (fuel : Nat) (p : Prog) (k : RKey) (σ : PrunerState) :
    PrunerState :=
  match lookupRevert σ k with
  | some e =>
    match e.node with
    | some n => finalizeNode fuel p k (p.flowOf k) n (p.functionCalls n) σ
    | none => σ
  | none => σ

/-- Promotion of one store entry at the end of its `removePendingPaths`
iteration: a record still `Pending` becomes `AllPathsRevert`. -/
def promoteEntry (k : RKey) (σ : PrunerState) : PrunerState :=
  match lookupRevert σ k with
  | some e =>
    if e.state = .Pending then setState .promotePending k .AllPathsRevert σ
    else σ
  | none => σ

/-- Loop of `removePendingPaths` over the store's entries: process the
remembered node if one exists, then promote a record still `Pending` to
`AllPathsRevert`. -/
def finalizeKeys (fuel : Nat) (p : Prog) :
    List RKey → PrunerState → PrunerState
  | [], σ => σ
  | k :: ks, σ => finalizeKeys fuel p ks (promoteEntry k (finalizeEntry fuel p k σ))

/-- Embedding of `ControlFlowRevertPruner::removePendingPaths`: iterate the
store in its key order over the entries present when the pass starts. -/
def removePendingPaths (fuel : Nat) (p : Prog) (σ : PrunerState) :
    PrunerState :=
  finalizeKeys fuel p (σ.reverts.map (fun x => x.1)) σ

/-- Embedding of `ControlFlowRevertPruner::run`: the AST-driven first
iteration followed by the finalization of pending records. -/
def run (fuel : Nat) (p : Prog) (σ : PrunerState) : PrunerState :=
  removePendingPaths fuel p (runDriver fuel p p.astOrder σ)

/-- Fresh pruner over the edge lists a previous run produced: the store and
trace start empty, the rewritten CFG is kept. -/
def resetStore (σ : PrunerState) : PrunerState :=
  ⟨σ.exitsMap, [], [], false⟩

/-- Call site through a statically resolved member access (the dispatch mode
under which `ResolveFunction` returns the declaration itself). -/
def staticCall (f : FuncId) : CallSite :=
  ⟨true, f, .memberAccess .Static none⟩

/-- Flow used for keys outside a concrete program's function table. -/
def defaultFlow : FunctionFlow := ⟨1000, 1001, 1002⟩

/-- Program with two mutually recursive functions and no other exit from
either: contract `0` with functions `f = 0` (entry 0, call node 1 calling
`g`, exit 2, revert 3) and `g = 1` (entry 4, call node 5 calling `f`,
exit 6, revert 7). -/
def progMutual : Prog where
  contracts := [(0, ⟨[0], [0, 1], false⟩)]
  astOrder := [.contractItem 0]
  funcs := fun f => ⟨false, some 0, f⟩
  flowOf := fun k =>
    match k with
    | (some 0, 0) => ⟨0, 2, 3⟩
    | (some 0, 1) => ⟨4, 6, 7⟩
    | _ => defaultFlow
  functionCalls := fun n =>
    match n with
    | 1 => [staticCall 1]
    | 5 => [staticCall 0]
    | _ => []
  initExits := fun n =>
    match n with
    | 0 => [1]
    | 1 => [2]
    | 4 => [5]
    | 5 => [6]
    | _ => []

/-- Program in which a record reaches `HasNonRevertingPath` and is later
re-initialized: contract `0` with `f = 0` (entry 0, call node 1 calling `g`,
exit 2, revert 3) and `g = 1` with a trivial non-reverting body (entry 4,
exit 5, revert 6).  Analyzing `f` first probes `g` to
`HasNonRevertingPath`; the driver then reaches `g` itself and
`removeRevertingPaths` overwrites the record with `Pending`. -/
def progReinit : Prog where
  contracts := [(0, ⟨[0], [0, 1], false⟩)]
  astOrder := [.contractItem 0]
  funcs := fun f => ⟨false, some 0, f⟩
  flowOf := fun k =>
    match k with
    | (some 0, 0) => ⟨0, 2, 3⟩
    | (some 0, 1) => ⟨4, 5, 6⟩
    | _ => defaultFlow
  functionCalls := fun n =>
    match n with
    | 1 => [staticCall 1]
    | _ => []
  initExits := fun n =>
    match n with
    | 0 => [1]
    | 1 => [2]
    | 4 => [5]
    | _ => []

/-- Program whose record for `f` finalizes `HasNonRevertingPath` while its
remembered `pendingNode` is still rewritten by the finalization pass.
Contract `0`; `f = 0`: entry 0 with exits to nodes 2 and 1, node 1 goes to
the exit 3, node 2 goes to node 4 which calls `g` and continues to node 7,
node 7 goes to the exit 3; revert 5.  `g = 1`: entry 6 to node 10, which
calls `f` and continues to `g`'s revert sentinel 9; exit 8 unreachable.
During the analysis of `f` the probe of `g` happens while `f` is `Pending`,
so node 4 is remembered as `f`'s pending node and tainted, yet the exit is
still visited untainted. -/
def progPendingNode : Prog where
  contracts := [(0, ⟨[0], [0, 1], false⟩)]
  astOrder := [.contractItem 0]
  funcs := fun f => ⟨false, some 0, f⟩
  flowOf := fun k =>
    match k with
    | (some 0, 0) => ⟨0, 3, 5⟩
    | (some 0, 1) => ⟨6, 8, 9⟩
    | _ => defaultFlow
  functionCalls := fun n =>
    match n with
    | 4 => [staticCall 1]
    | 10 => [staticCall 0]
    | _ => []
  initExits := fun n =>
    match n with
    | 0 => [2, 1]
    | 1 => [3]
    | 2 => [4]
    | 4 => [7]
    | 7 => [3]
    | 6 => [10]
    | 10 => [9]
    | _ => []

/-- Program probing a callee `h` whose exit is visited untainted before a
`Pending` sub-call is checked.  Contract `0`; `f = 0`: entry 0, node 1
calling `h`, exit 2, revert 3.  `h = 1`: entry 4 with exits to 5 and 6;
node 5 goes to the exit 8; node 6 goes to node 7, which calls `f` (still
`Pending` during the probe) and continues to the exit 8; revert 9. -/
def progProbeOrder : Prog where
  contracts := [(0, ⟨[0], [0, 1], false⟩)]
  astOrder := [.contractItem 0]
  funcs := fun f => ⟨false, some 0, f⟩
  flowOf := fun k =>
    match k with
    | (some 0, 0) => ⟨0, 2, 3⟩
    | (some 0, 1) => ⟨4, 8, 9⟩
    | _ => defaultFlow
  functionCalls := fun n =>
    match n with
    | 1 => [staticCall 1]
    | 7 => [staticCall 0]
    | _ => []
  initExits := fun n =>
    match n with
    | 0 => [1]
    | 1 => [2]
    | 4 => [5, 6]
    | 5 => [8]
    | 6 => [7]
    | 7 => [8]
    | _ => []

/-- Variant of `progProbeOrder` in which the `Pending` sub-call is checked
before the exit is visited untainted.  `h = 1`: entry 4 with exits to 5 and
6; node 5 goes to node 7, which calls `f` and continues to node 8, node 8
goes to the exit 9; node 6 goes directly to the exit 9; revert 10. -/
def progProbeOrderLate : Prog where
  contracts := [(0, ⟨[0], [0, 1], false⟩)]
  astOrder := [.contractItem 0]
  funcs := fun f => ⟨false, some 0, f⟩
  flowOf := fun k =>
    match k with
    | (some 0, 0) => ⟨0, 2, 3⟩
    | (some 0, 1) => ⟨4, 9, 10⟩
    | _ => defaultFlow
  functionCalls := fun n =>
    match n with
    | 1 => [staticCall 1]
    | 7 => [staticCall 0]
    | _ => []
  initExits := fun n =>
    match n with
    | 0 => [1]
    | 1 => [2]
    | 4 => [5, 6]
    | 5 => [7]
    | 6 => [9]
    | 7 => [8]
    | 8 => [9]
    | _ => []

/-- Program on which a second `run` over the first run's output rewrites
edges the first run left alone.  Contract `0` with functions `p0 = 0`
(entry 0, node 1 calling `fn = 1`, exit 2, revert 3), `fn = 1` (entry 4,
node 5 calling both `k = 2` and `m = 3`, exit 6, revert 7), `k = 2`
(entry 8, exit 9, revert 10), `m = 3` (entry 11 branching to 12 and 13,
node 12 to the exit 14, node 13 calling `m` itself and continuing to the
exit 14, revert 15) and `a = 4` (entry 16, node 17 calling `fn`, exit 18,
revert 19); driver order `p0, a, m, fn, k`. -/
def progTwoRuns : Prog where
  contracts := [(0, ⟨[0], [0, 4, 3, 1, 2], false⟩)]
  astOrder := [.contractItem 0]
  funcs := fun f => ⟨false, some 0, f⟩
  flowOf := fun k =>
    match k with
    | (some 0, 0) => ⟨0, 2, 3⟩
    | (some 0, 1) => ⟨4, 6, 7⟩
    | (some 0, 2) => ⟨8, 9, 10⟩
    | (some 0, 3) => ⟨11, 14, 15⟩
    | (some 0, 4) => ⟨16, 18, 19⟩
    | _ => defaultFlow
  functionCalls := fun n =>
    match n with
    | 1 => [staticCall 1]
    | 5 => [staticCall 2, staticCall 3]
    | 13 => [staticCall 3]
    | 17 => [staticCall 1]
    | _ => []
  initExits := fun n =>
    match n with
    | 0 => [1]
    | 1 => [2]
    | 4 => [5]
    | 5 => [6]
    | 8 => [9]
    | 11 => [12, 13]
    | 12 => [14]
    | 13 => [14]
    | 16 => [17]
    | 17 => [18]
    | _ => []

/-- Program with a conditional whose one branch calls an always-reverting
function.  Contract `0`; `f = 0`: entry 0 branching to nodes 1 and 2; node 1
calls `r = 1` and continues to the exit 3; node 2 goes to the exit 3;
revert 4.  `r = 1`: entry 5 going directly to its revert sentinel 7;
exit 6 unreachable. -/
def progBranch : Prog where
  contracts := [(0, ⟨[0], [0, 1], false⟩)]
  astOrder := [.contractItem 0]
  funcs := fun f => ⟨false, some 0, f⟩
  flowOf := fun k =>
    match k with
    | (some 0, 0) => ⟨0, 3, 4⟩
    | (some 0, 1) => ⟨5, 6, 7⟩
    | _ => defaultFlow
  functionCalls := fun n =>
    match n with
    | 1 => [staticCall 1]
    | _ => []
  initExits := fun n =>
    match n with
    | 0 => [1, 2]
    | 1 => [3]
    | 2 => [3]
    | 5 => [7]
    | _ => []

/-- Program with two unrelated contracts calling the same library function:
contracts `1` and `2` (functions `0` and `1` respectively, each calling the
library function `2`), library `3` defining function `2` with a trivial
non-reverting body. -/
def progLibShare : Prog where
  contracts :=
    [(1, ⟨[1], [0], false⟩), (2, ⟨[2], [1], false⟩), (3, ⟨[3], [2], true⟩)]
  astOrder := [.contractItem 1, .contractItem 2, .contractItem 3]
  funcs := fun f =>
    match f with
    | 0 => ⟨false, some 1, 0⟩
    | 1 => ⟨false, some 2, 1⟩
    | _ => ⟨false, some 3, 2⟩
  flowOf := fun k =>
    match k with
    | (some 1, 0) => ⟨0, 2, 3⟩
    | (some 2, 1) => ⟨4, 6, 7⟩
    | (some 3, 2) => ⟨8, 9, 10⟩
    | _ => defaultFlow
  functionCalls := fun n =>
    match n with
    | 1 => [staticCall 2]
    | 5 => [staticCall 2]
    | _ => []
  initExits := fun n =>
    match n with
    | 0 => [1]
    | 1 => [2]
    | 4 => [5]
    | 5 => [6]
    | 8 => [9]
    | _ => []

/-- Inheritance hierarchy for resolver checks: contract `1` (base, defining
function `0` with signature 7), contract `2` (middle, linearization
`[2, 1]`, defining the override `1` with the same signature 7), contract `3`
(derived, linearization `[3, 2, 1]`, defining nothing). -/
def progHierarchy : Prog where
  contracts :=
    [(1, ⟨[1], [0], false⟩), (2, ⟨[2, 1], [1], false⟩), (3, ⟨[3, 2, 1], [], false⟩)]
  astOrder := []
  funcs := fun f =>
    match f with
    | 0 => ⟨false, some 1, 7⟩
    | 1 => ⟨false, some 2, 7⟩
    | _ => ⟨false, none, 99⟩
  flowOf := fun _ => defaultFlow
  functionCalls := fun _ => []
  initExits := fun _ => []

/-- Regression in the lattice order `Pending < AllPathsRevert`,
`Pending < HasNonRevertingPath`: a state write leaving
`HasNonRevertingPath`, or dropping from `AllPathsRevert` back to
`Pending`. -/
def regression (old : Option RevertState) (new : RevertState) : Prop :=
  (old = some .HasNonRevertingPath ∧ ¬ new = .HasNonRevertingPath) ∨
  (old = some .AllPathsRevert ∧ new = .Pending)

/-- Condition every trace event satisfies: a state write that regresses in
the lattice order stems from the `Pending` re-initialization in
`removeRevertingPaths` or from the probing downgrade in `checkForReverts`,
and an edge rewrite replaces the node's exits by exactly the single revert
sentinel edge of the flow of the record key on whose behalf it happened. -/
def eventOK (p : Prog) : Event → Prop
  | .stateWrite tag _ old new =>
    regression old new → tag = .initPending ∨ tag = .probeDowngrade
  | .exitsWrite k _ _ new => new = [(p.flowOf k).revert]

/-- All events of a trace satisfy `eventOK`. -/
def TraceOK (p : Prog) (l : List Event) : Prop := ∀ e ∈ l, eventOK p e

/-- Relation between a traversal policy and the flow passed alongside it:
the pruning policy is only ever run on the flow of its own record key. -/
def polOK (p : Prog) : TraversePolicy → FunctionFlow → Prop
  | .prune k, flow => flow = p.flowOf k
  | .probe _, _ => True

/-- Whether an event is an edge rewrite. -/
def isExitsWrite : Event → Bool
  | .exitsWrite _ _ _ _ => true
  | .stateWrite _ _ _ _ => false

/-- Node identifiers appearing in `progTwoRuns`. -/
def twoRunsNodes : List NodeId :=
  [0, 1, 2, 3, 4, 5, 6, 7, 8, 9, 10, 11, 12, 13, 14, 15, 16, 17, 18, 19]

theorem checkForReverts_zero (p : Prog) (call : CallSite)
    (ctx : Option ContractId) (σ : PrunerState) :
    checkForReverts 0 p call ctx σ =
      if call.hasDeclaration = false then (.HasNonRevertingPath, σ)
      else (.Pending, σ) := rfl

theorem checkForReverts_succ (fuel : Nat) (p : Prog) (call : CallSite)
    (ctx : Option ContractId) (σ : PrunerState) :
    checkForReverts (fuel + 1) p call ctx σ =
      if call.hasDeclaration = false then (.HasNonRevertingPath, σ)
      else
        match resolveFunction p call ctx with
        | none => (.HasNonRevertingPath, { σ with internalError := true })
        | some fd =>
          match lookupRevert σ (getNormalizedKey p fd ctx) with
          | some e => (e.state, σ)
          | none =>
            traverseFunctionFlow fuel p fd ctx
              (p.flowOf (getNormalizedKey p fd ctx))
              (.probe (getNormalizedKey p fd ctx))
              (setState .seedAllPaths (getNormalizedKey p fd ctx)
                .AllPathsRevert σ) := rfl

theorem traverseFunctionFlow_succ (fuel : Nat) (p : Prog) (f : FuncId)
    (ctx : Option ContractId) (flow : FunctionFlow) (pol : TraversePolicy)
    (σ : PrunerState) :
    traverseFunctionFlow (fuel + 1) p f ctx flow pol σ =
      (stateD
        (bfsStep fuel p ctx flow pol (getNormalizedKey p f ctx) [flow.entry]
          [] [] (ensureRecord (getNormalizedKey p f ctx) σ))
        (getNormalizedKey p f ctx),
       bfsStep fuel p ctx flow pol (getNormalizedKey p f ctx) [flow.entry]
         [] [] (ensureRecord (getNormalizedKey p f ctx) σ)) := rfl

theorem bfsStep_succ (fuel : Nat) (p : Prog) (ctx : Option ContractId)
    (flow : FunctionFlow) (pol : TraversePolicy) (k : RKey)
    (queue visited pendingNodes : List NodeId) (σ : PrunerState) :
    bfsStep (fuel + 1) p ctx flow pol k queue visited pendingNodes σ =
      match queue with
      | [] => σ
      | n :: rest =>
        if n ∈ visited then
          bfsStep fuel p ctx flow pol k rest visited pendingNodes σ
        else
          if n = flow.exit then
            bfsStep fuel p ctx flow pol k rest (insertNode n visited)
              pendingNodes
              (if n ∈ pendingNodes then σ
               else setState .exitNonRevert k .HasNonRevertingPath σ)
          else
            let r := processCalls fuel p ctx flow pol n (p.functionCalls n)
              (n ∈ pendingNodes) pendingNodes σ
            if r.1 then
              bfsStep fuel p ctx flow pol k rest (insertNode n visited)
                r.2.2.1 r.2.2.2
            else
              bfsStep fuel p ctx flow pol k
                (rest ++ getExits p r.2.2.2 n) (insertNode n visited)
                (if r.2.1 then
                  (getExits p r.2.2.2 n).foldl (fun acc c => insertNode c acc)
                    r.2.2.1
                 else r.2.2.1) r.2.2.2 := by
  cases queue with
  | nil => rfl
  | cons n rest => rfl

theorem processCalls_succ (fuel : Nat) (p : Prog) (ctx : Option ContractId)
    (flow : FunctionFlow) (pol : TraversePolicy) (n : NodeId)
    (calls : List CallSite) (pending : Bool) (pendingNodes : List NodeId)
    (σ : PrunerState) :
    processCalls (fuel + 1) p ctx flow pol n calls pending pendingNodes σ =
      match calls with
      | [] => (false, pending, pendingNodes, σ)
      | c :: cs =>
        if (applyPolicy p pol (checkForReverts fuel p c ctx σ).1 n flow
            (checkForReverts fuel p c ctx σ).2).1 = false then
          (true, pending, pendingNodes,
           (applyPolicy p pol (checkForReverts fuel p c ctx σ).1 n flow
             (checkForReverts fuel p c ctx σ).2).2)
        else
          processCalls fuel p ctx flow pol n cs
            (if (checkForReverts fuel p c ctx σ).1 = .Pending then true
             else pending)
            (if (checkForReverts fuel p c ctx σ).1 = .Pending then
              insertNode n pendingNodes
             else pendingNodes)
            (applyPolicy p pol (checkForReverts fuel p c ctx σ).1 n flow
              (checkForReverts fuel p c ctx σ).2).2 := by
  cases calls with
  | nil => rfl
  | cons c cs => rfl

theorem trace_setPendingNode (k : RKey) (n : NodeId) (σ : PrunerState) :
    (setPendingNode k n σ).trace = σ.trace := by
  unfold setPendingNode
  cases lookupRevert σ k <;> rfl

theorem trace_ensureRecord (k : RKey) (σ : PrunerState) :
    (ensureRecord k σ).trace = σ.trace := by
  unfold ensureRecord
  cases lookupRevert σ k <;> rfl

theorem trace_setState (tag : WriteTag) (k : RKey) (s : RevertState)
    (σ : PrunerState) :
    (setState tag k s σ).trace =
      σ.trace ++
        [.stateWrite tag k ((lookupRevert σ k).map RevertEntry.state) s] := by
  unfold setState
  cases lookupRevert σ k <;> rfl

theorem trace_rewriteExits (p : Prog) (k : RKey) (n : NodeId)
    (v : List NodeId) (σ : PrunerState) :
    (rewriteExits p k n v σ).trace =
      σ.trace ++ [.exitsWrite k n (getExits p σ n) v] := by
  unfold rewriteExits
  cases σ.exitsMap.find? (fun x => x.1 = n) <;> rfl

theorem traceOK_append {p : Prog} {l1 l2 : List Event} (h1 : TraceOK p l1)
    (h2 : TraceOK p l2) : TraceOK p (l1 ++ l2) := by
  intro e he
  rcases List.mem_append.mp he with h | h
  · exact h1 e h
  · exact h2 e h

theorem traceOK_setState_init {p : Prog} {σ : PrunerState} (k : RKey)
    (s : RevertState) (h : TraceOK p σ.trace) :
    TraceOK p (setState .initPending k s σ).trace := by
  rw [trace_setState]
  refine traceOK_append h ?_
  intro e he
  rcases List.mem_singleton.mp he with rfl
  exact fun _ => Or.inl rfl

theorem traceOK_setState_downgrade {p : Prog} {σ : PrunerState} (k : RKey)
    (s : RevertState) (h : TraceOK p σ.trace) :
    TraceOK p (setState .probeDowngrade k s σ).trace := by
  rw [trace_setState]
  refine traceOK_append h ?_
  intro e he
  rcases List.mem_singleton.mp he with rfl
  exact fun _ => Or.inr rfl

theorem traceOK_setState_seed {p : Prog} {σ : PrunerState} {k : RKey}
    (s : RevertState) (hl : lookupRevert σ k = none)
    (h : TraceOK p σ.trace) :
    TraceOK p (setState .seedAllPaths k s σ).trace := by
  rw [trace_setState, hl]
  refine traceOK_append h ?_
  intro e he
  rcases List.mem_singleton.mp he with rfl
  rintro (⟨h1, _⟩ | ⟨h1, _⟩) <;> exact Option.noConfusion h1

theorem traceOK_setState_exitNR {p : Prog} {σ : PrunerState} (k : RKey)
    (h : TraceOK p σ.trace) :
    TraceOK p (setState .exitNonRevert k .HasNonRevertingPath σ).trace := by
  rw [trace_setState]
  refine traceOK_append h ?_
  intro e he
  rcases List.mem_singleton.mp he with rfl
  rintro (⟨_, h2⟩ | ⟨_, h2⟩)
  · exact absurd rfl h2
  · exact RevertState.noConfusion h2

theorem traceOK_setState_promote {p : Prog} {σ : PrunerState} {k : RKey}
    {e : RevertEntry} (hl : lookupRevert σ k = some e)
    (hp : e.state = .Pending) (h : TraceOK p σ.trace) :
    TraceOK p (setState .promotePending k .AllPathsRevert σ).trace := by
  rw [trace_setState, hl]
  refine traceOK_append h ?_
  intro ev hev
  rcases List.mem_singleton.mp hev with rfl
  rintro (⟨h1, _⟩ | ⟨h1, _⟩) <;>
    · simp only [Option.map] at h1
      rw [hp] at h1
      exact RevertState.noConfusion (Option.some.inj h1)

theorem traceOK_rewriteExits {p : Prog} {σ : PrunerState} (k : RKey)
    (n : NodeId) (h : TraceOK p σ.trace) :
    TraceOK p (rewriteExits p k n [(p.flowOf k).revert] σ).trace := by
  rw [trace_rewriteExits]
  refine traceOK_append h ?_
  intro e he
  rcases List.mem_singleton.mp he with rfl
  exact rfl

theorem traceOK_setPendingNode {p : Prog} {σ : PrunerState} (k : RKey)
    (n : NodeId) (h : TraceOK p σ.trace) :
    TraceOK p (setPendingNode k n σ).trace := by
  rw [trace_setPendingNode]
  exact h

theorem traceOK_ensureRecord {p : Prog} {σ : PrunerState} (k : RKey)
    (h : TraceOK p σ.trace) : TraceOK p (ensureRecord k σ).trace := by
  rw [trace_ensureRecord]
  exact h

theorem traceOK_applyPolicy {p : Prog} {pol : TraversePolicy}
    {flow : FunctionFlow} (st : RevertState) (n : NodeId) {σ : PrunerState}
    (hpol : polOK p pol flow) (h : TraceOK p σ.trace) :
    TraceOK p (applyPolicy p pol st n flow σ).2.trace := by
  cases pol with
  | prune k =>
    cases st with
    | AllPathsRevert =>
      have hf : flow = p.flowOf k := hpol
      simp only [applyPolicy, hf]
      exact traceOK_rewriteExits k n h
    | Pending => exact traceOK_setPendingNode k n h
    | HasNonRevertingPath => exact h
  | probe k =>
    cases st with
    | AllPathsRevert => exact h
    | Pending => exact traceOK_setState_downgrade k .Pending h
    | HasNonRevertingPath => exact h

theorem traceOK_mutual (p : Prog) : ∀ fuel : Nat,
    (∀ (call : CallSite) (ctx : Option ContractId) (σ : PrunerState),
      TraceOK p σ.trace →
      TraceOK p ((checkForReverts fuel p call ctx σ).2).trace) ∧
    (∀ (f : FuncId) (ctx : Option ContractId) (flow : FunctionFlow)
      (pol : TraversePolicy) (σ : PrunerState), polOK p pol flow →
      TraceOK p σ.trace →
      TraceOK p ((traverseFunctionFlow fuel p f ctx flow pol σ).2).trace) ∧
    (∀ (ctx : Option ContractId) (flow : FunctionFlow) (pol : TraversePolicy)
      (k : RKey) (q vis pn : List NodeId) (σ : PrunerState),
      polOK p pol flow → TraceOK p σ.trace →
      TraceOK p (bfsStep fuel p ctx flow pol k q vis pn σ).trace) ∧
    (∀ (ctx : Option ContractId) (flow : FunctionFlow) (pol : TraversePolicy)
      (n : NodeId) (calls : List CallSite) (pend : Bool) (pn : List NodeId)
      (σ : PrunerState), polOK p pol flow → TraceOK p σ.trace →
      TraceOK p
        ((processCalls fuel p ctx flow pol n calls pend pn σ).2.2.2).trace) := by
  intro fuel
  induction fuel with
  | zero =>
    refine ⟨?_, ?_, ?_, ?_⟩
    · intro call ctx σ h
      rw [checkForReverts_zero]
      split <;> exact h
    · intro f ctx flow pol σ _ h
      exact h
    · intro ctx flow pol k q vis pn σ _ h
      exact h
    · intro ctx flow pol n calls pend pn σ _ h
      exact h
  | succ fuel ih =>
    obtain ⟨ihc, iht, ihb, ihp⟩ := ih
    refine ⟨?_, ?_, ?_, ?_⟩
    · intro call ctx σ h
      rw [checkForReverts_succ]
      split
      · exact h
      · split
        · exact h
        · split
          · exact h
          · rename_i fd hres e hlook
            exact iht _ _ _ _ _ trivial (traceOK_setState_seed _ hlook h)
    · intro f ctx flow pol σ hpol h
      rw [traverseFunctionFlow_succ]
      exact ihb _ _ _ _ _ _ _ _ hpol (traceOK_ensureRecord _ h)
    · intro ctx flow pol k q vis pn σ hpol h
      rw [bfsStep_succ]
      split
      · exact h
      · rename_i n rest
        split
        · exact ihb _ _ _ _ _ _ _ _ hpol h
        · split
          · refine ihb _ _ _ _ _ _ _ _ hpol ?_
            split
            · exact h
            · exact traceOK_setState_exitNR _ h
          · have hproc :=
              ihp ctx flow pol n (p.functionCalls n) (decide (n ∈ pn)) pn σ
                hpol h
            dsimp only
            split
            · exact ihb _ _ _ _ _ _ _ _ hpol hproc
            · exact ihb _ _ _ _ _ _ _ _ hpol hproc
    · intro ctx flow pol n calls pend pn σ hpol h
      rw [processCalls_succ]
      split
      · exact h
      · rename_i c cs
        have hcheck := ihc c ctx σ h
        have happ := traceOK_applyPolicy
          (checkForReverts fuel p c ctx σ).1 n hpol hcheck
        split
        · exact happ
        · exact ihp _ _ _ _ _ _ _ _ hpol happ

theorem traceOK_removeRevertingPaths (fuel : Nat) (p : Prog) (f : FuncId)
    (ctx : Option ContractId) {σ : PrunerState} (h : TraceOK p σ.trace) :
    TraceOK p (removeRevertingPaths fuel p f ctx σ).trace := by
  unfold removeRevertingPaths
  exact (traceOK_mutual p fuel).2.1 f ctx (p.flowOf (ctx, f))
    (.prune (ctx, f)) _ rfl (traceOK_setState_init _ _ h)

theorem traceOK_processFunctions (fuel : Nat) (p : Prog) (c : ContractId) :
    ∀ (fs : List FuncId) (σ : PrunerState), TraceOK p σ.trace →
      TraceOK p (processFunctions fuel p c fs σ).trace
  | [], _, h => h
  | f :: fs, _, h =>
    traceOK_processFunctions fuel p c fs _
      (traceOK_removeRevertingPaths fuel p f (some c) h)

theorem traceOK_processBases (fuel : Nat) (p : Prog) (c : ContractId) :
    ∀ (cs : List ContractId) (σ : PrunerState), TraceOK p σ.trace →
      TraceOK p (processBases fuel p c cs σ).trace
  | [], _, h => h
  | c2 :: cs, _, h =>
    traceOK_processBases fuel p c cs _
      (traceOK_processFunctions fuel p c
        (contractInfo p c2).definedFunctions _ h)

theorem traceOK_visitItem (fuel : Nat) (p : Prog) (it : DriverItem)
    {σ : PrunerState} (h : TraceOK p σ.trace) :
    TraceOK p (visitItem fuel p σ it).trace := by
  cases it with
  | contractItem c =>
    exact traceOK_processBases fuel p c
      (contractInfo p c).linearizedBaseContracts _ h
  | functionItem f =>
    have he : visitItem fuel p σ (.functionItem f) =
        if (p.funcs f).isFree then removeRevertingPaths fuel p f none σ
        else σ := rfl
    rw [he]
    split
    · exact traceOK_removeRevertingPaths fuel p f none h
    · exact h

theorem traceOK_runDriver (fuel : Nat) (p : Prog) :
    ∀ (its : List DriverItem) (σ : PrunerState), TraceOK p σ.trace →
      TraceOK p (runDriver fuel p its σ).trace
  | [], _, h => h
  | it :: rest, _, h =>
    traceOK_runDriver fuel p rest _ (traceOK_visitItem fuel p it h)

theorem traceOK_finalizeNode (fuel : Nat) (p : Prog) (k : RKey)
    {flow : FunctionFlow} (hf : flow = p.flowOf k) (n : NodeId) :
    ∀ (calls : List CallSite) (σ : PrunerState), TraceOK p σ.trace →
      TraceOK p (finalizeNode fuel p k flow n calls σ).trace := by
  intro calls
  induction calls with
  | nil => exact fun σ h => h
  | cons c cs ihcs =>
    intro σ h
    have hcheck := (traceOK_mutual p fuel).1 c k.1 σ h
    unfold finalizeNode
    refine ihcs _ ?_
    split
    · rw [hf]
      exact traceOK_rewriteExits k n hcheck
    · rw [hf]
      exact traceOK_rewriteExits k n hcheck
    · exact hcheck

theorem traceOK_finalizeEntry (fuel : Nat) (p : Prog) (k : RKey)
    {σ : PrunerState} (h : TraceOK p σ.trace) :
    TraceOK p (finalizeEntry fuel p k σ).trace := by
  unfold finalizeEntry
  split
  · split
    · exact traceOK_finalizeNode fuel p k rfl _ _ _ h
    · exact h
  · exact h

theorem traceOK_promoteEntry (p : Prog) (k : RKey) {σ : PrunerState}
    (h : TraceOK p σ.trace) : TraceOK p (promoteEntry k σ).trace := by
  unfold promoteEntry
  split
  · rename_i e hl
    split
    · rename_i hp2
      exact traceOK_setState_promote hl hp2 h
    · exact h
  · exact h

theorem traceOK_finalizeKeys (fuel : Nat) (p : Prog) :
    ∀ (ks : List RKey) (σ : PrunerState), TraceOK p σ.trace →
      TraceOK p (finalizeKeys fuel p ks σ).trace := by
  intro ks
  induction ks with
  | nil => exact fun σ h => h
  | cons k rest ihks =>
    intro σ h
    unfold finalizeKeys
    exact ihks _ (traceOK_promoteEntry p k (traceOK_finalizeEntry fuel p k h))

theorem traceOK_removePendingPaths (fuel : Nat) (p : Prog)
    {σ : PrunerState} (h : TraceOK p σ.trace) :
    TraceOK p (removePendingPaths fuel p σ).trace :=
  traceOK_finalizeKeys fuel p _ σ h

theorem traceOK_run (fuel : Nat) (p : Prog) {σ : PrunerState}
    (h : TraceOK p σ.trace) : TraceOK p (run fuel p σ).trace :=
  traceOK_removePendingPaths fuel p
    (traceOK_runDriver fuel p p.astOrder σ h)

/-- C1 (amended): every state write that regresses in the lattice order
`Pending < {AllPathsRevert, HasNonRevertingPath}` — in particular every
overwrite of `HasNonRevertingPath` — is one of the two re-initializing
writes: the `Pending` reset at the start of `removeRevertingPaths` for the
function it is about to analyze, or the `Pending` downgrade of the probing
callback in `checkForReverts`; all other writes (the optimistic seed, the
exit-visit write, the finalization promotion) never regress, over the whole
two-pass run on any program. -/
theorem c1_amended_monotone (p : Prog) (fuel : Nat) (tag : WriteTag)
    (k : RKey) (old : Option RevertState) (new : RevertState)
    (hmem : Event.stateWrite tag k old new ∈ (run fuel p initSt).trace)
    (hreg : regression old new) :
    tag = .initPending ∨ tag = .probeDowngrade :=
  (traceOK_run fuel p (fun e he => absurd he (List.not_mem_nil e)) _ hmem)
    hreg

/-- C1 (amended, witness): the regressing write observed on `progReinit`
(overwriting `HasNonRevertingPath` with `Pending`) carries the
re-initialization tag. -/
theorem c1_amended_monotone_witness :
    WriteTag.initPending = WriteTag.initPending ∨
    WriteTag.initPending = WriteTag.probeDowngrade :=
  c1_amended_monotone progReinit 300 .initPending (some 0, 1)
    (some .HasNonRevertingPath) .Pending (by decide)
    (Or.inl ⟨rfl, by decide⟩)

/-- C4: whenever the pass rewrites a node's edges — in pass 1 when a call
on the node is classified `AllPathsRevert`, or in the finalization pass —
the node's exits are replaced in full by exactly one edge, the revert
sentinel of the flow of the record key on whose behalf the rewrite
happened (the owning function's flow): every edge-rewrite event of a whole
run, on any program, writes exactly that singleton list. -/
theorem c4_collapse_single_edge (p : Prog) (fuel : Nat) (k : RKey)
    (n : NodeId) (old new : List NodeId)
    (hmem : Event.exitsWrite k n old new ∈ (run fuel p initSt).trace) :
    new = [(p.flowOf k).revert] :=
  traceOK_run fuel p (fun e he => absurd he (List.not_mem_nil e)) _ hmem

/-- C4 (witness): the rewrite of node `1` performed by the run on
`progMutual` wrote exactly the singleton revert-sentinel edge of function
`0`'s flow. -/
theorem c4_collapse_single_edge_witness :
    ([3] : List NodeId) = [(progMutual.flowOf (some 0, 0)).revert] :=
  c4_collapse_single_edge progMutual 200 (some 0, 0) 1 [2] [3] (by decide)

theorem find?_updateAssoc_ne (k k2 : RKey) (v : RevertEntry)
    (l : List (RKey × RevertEntry)) (hne : ¬ k = k2) :
    (updateAssoc k2 v l).find? (fun y => y.1 = k) =
      l.find? (fun y => y.1 = k) := by
  induction l with
  | nil => rfl
  | cons a rest ih =>
    obtain ⟨a1, a2⟩ := a
    by_cases h : a1 = k2
    · have hu : updateAssoc k2 v ((a1, a2) :: rest) = (a1, v) :: rest := by
        simp [updateAssoc, h]
      have hk : ¬ a1 = k := fun hk => hne (hk.symm.trans h)
      rw [hu, List.find?_cons_of_neg _ (by simp [hk]),
        List.find?_cons_of_neg _ (by simp [hk])]
    · have hu : updateAssoc k2 v ((a1, a2) :: rest) =
          (a1, a2) :: updateAssoc k2 v rest := by
        simp [updateAssoc, h]
      rw [hu]
      by_cases hk : a1 = k
      · rw [List.find?_cons_of_pos _ (by simp [hk]),
          List.find?_cons_of_pos _ (by simp [hk])]
      · rw [List.find?_cons_of_neg _ (by simp [hk]),
          List.find?_cons_of_neg _ (by simp [hk])]
        exact ih

theorem find?_updateAssoc_self (k : RKey) (v : RevertEntry)
    (l : List (RKey × RevertEntry)) (x : RKey × RevertEntry)
    (hf : l.find? (fun y => y.1 = k) = some x) :
    (updateAssoc k v l).find? (fun y => y.1 = k) = some (x.1, v) := by
  induction l with
  | nil => cases hf
  | cons a rest ih =>
    obtain ⟨a1, a2⟩ := a
    by_cases h : a1 = k
    · rw [List.find?_cons_of_pos _ (by simp [h])] at hf
      obtain rfl := Option.some.inj hf
      have hu : updateAssoc k v ((a1, a2) :: rest) = (a1, v) :: rest := by
        simp [updateAssoc, h]
      rw [hu, List.find?_cons_of_pos _ (by simp [h])]
    · rw [List.find?_cons_of_neg _ (by simp [h])] at hf
      have hu : updateAssoc k v ((a1, a2) :: rest) =
          (a1, a2) :: updateAssoc k v rest := by
        simp [updateAssoc, h]
      rw [hu, List.find?_cons_of_neg _ (by simp [h])]
      exact ih hf

theorem find?_insertSorted_ne (k k2 : RKey) (v : RevertEntry)
    (l : List (RKey × RevertEntry)) (hne : ¬ k2 = k) :
    (insertSorted k2 v l).find? (fun y => y.1 = k) =
      l.find? (fun y => y.1 = k) := by
  induction l with
  | nil =>
    have hu : insertSorted k2 v [] = [(k2, v)] := rfl
    rw [hu, List.find?_cons_of_neg _ (by simp [hne])]
  | cons a rest ih =>
    obtain ⟨a1, a2⟩ := a
    by_cases h : keyLt k2 a1 = true
    · have hu : insertSorted k2 v ((a1, a2) :: rest) =
          (k2, v) :: (a1, a2) :: rest := by
        simp [insertSorted, h]
      rw [hu, List.find?_cons_of_neg _ (by simp [hne])]
    · have hu : insertSorted k2 v ((a1, a2) :: rest) =
          (a1, a2) :: insertSorted k2 v rest := by
        simp [insertSorted, h]
      rw [hu]
      by_cases hk : a1 = k
      · rw [List.find?_cons_of_pos _ (by simp [hk]),
          List.find?_cons_of_pos _ (by simp [hk])]
      · rw [List.find?_cons_of_neg _ (by simp [hk]),
          List.find?_cons_of_neg _ (by simp [hk])]
        exact ih

theorem lookupRevert_setState_ne (tag : WriteTag) (k2 : RKey)
    (s : RevertState) (σ : PrunerState) (k : RKey) (hne : ¬ k = k2) :
    lookupRevert (setState tag k2 s σ) k = lookupRevert σ k := by
  unfold setState
  cases hl : lookupRevert σ k2 with
  | some e =>
    show lookupRevert
      { σ with reverts := updateAssoc k2 { e with state := s } σ.reverts,
               trace := _ } k = lookupRevert σ k
    unfold lookupRevert
    rw [find?_updateAssoc_ne k k2 _ _ hne]
  | none =>
    show lookupRevert
      { σ with reverts := insertSorted k2 ⟨none, s⟩ σ.reverts,
               trace := _ } k = lookupRevert σ k
    unfold lookupRevert
    rw [find?_insertSorted_ne k k2 _ _ (fun hh => hne hh.symm)]

theorem lookupRevert_setState_self (tag : WriteTag) (k : RKey)
    (s : RevertState) (σ : PrunerState) (e : RevertEntry)
    (hl : lookupRevert σ k = some e) :
    lookupRevert (setState tag k s σ) k = some ⟨e.node, s⟩ := by
  unfold setState
  rw [hl]
  unfold lookupRevert at hl ⊢
  cases hf : σ.reverts.find? (fun x => x.1 = k) with
  | none => rw [hf] at hl; cases hl
  | some x =>
    rw [hf] at hl
    obtain rfl := Option.some.inj hl
    rw [find?_updateAssoc_self k _ _ _ hf]

theorem lookupRevert_setPendingNode_ne (k2 : RKey) (n : NodeId)
    (σ : PrunerState) (k : RKey) (hne : ¬ k = k2) :
    lookupRevert (setPendingNode k2 n σ) k = lookupRevert σ k := by
  unfold setPendingNode
  cases hl : lookupRevert σ k2 with
  | some e =>
    show lookupRevert
      { σ with reverts := updateAssoc k2 { e with node := some n } σ.reverts }
        k = lookupRevert σ k
    unfold lookupRevert
    rw [find?_updateAssoc_ne k k2 _ _ hne]
  | none =>
    show lookupRevert
      { σ with reverts := insertSorted k2 ⟨some n, .Pending⟩ σ.reverts } k =
        lookupRevert σ k
    unfold lookupRevert
    rw [find?_insertSorted_ne k k2 _ _ (fun hh => hne hh.symm)]

theorem lookupRevert_ensureRecord_pres (k2 : RKey) (σ : PrunerState)
    (k : RKey) (v : RevertEntry) (hl : lookupRevert σ k = some v) :
    lookupRevert (ensureRecord k2 σ) k = some v := by
  unfold ensureRecord
  cases he : lookupRevert σ k2 with
  | some e => exact hl
  | none =>
    have hne : ¬ k2 = k := by
      intro hh
      rw [hh] at he
      rw [he] at hl
      cases hl
    show lookupRevert
      { σ with reverts := insertSorted k2 ⟨none, .Pending⟩ σ.reverts } k =
        some v
    unfold lookupRevert at hl ⊢
    rw [find?_insertSorted_ne k k2 _ _ hne]
    exact hl

theorem lookupRevert_rewriteExits (p : Prog) (k2 : RKey) (n : NodeId)
    (v : List NodeId) (σ : PrunerState) (k : RKey) :
    lookupRevert (rewriteExits p k2 n v σ) k = lookupRevert σ k := by
  unfold rewriteExits lookupRevert
  cases σ.exitsMap.find? (fun x => x.1 = n) <;> rfl

theorem lookupRevert_applyPolicy_probe (p : Prog) (k0 : RKey)
    (st : RevertState) (n : NodeId) (flow : FunctionFlow) (σ : PrunerState)
    (k : RKey) (v : RevertEntry) (hk0 : ¬ k = k0)
    (hl : lookupRevert σ k = some v) :
    lookupRevert (applyPolicy p (.probe k0) st n flow σ).2 k = some v := by
  cases st with
  | AllPathsRevert => exact hl
  | Pending =>
    show lookupRevert (setState .probeDowngrade k0 .Pending σ) k = some v
    rw [lookupRevert_setState_ne _ _ _ _ _ hk0]
    exact hl
  | HasNonRevertingPath => exact hl

theorem preserve_mutual (p : Prog) : ∀ fuel : Nat,
    (∀ (call : CallSite) (ctx : Option ContractId) (σ : PrunerState)
      (k : RKey) (v : RevertEntry), lookupRevert σ k = some v →
      lookupRevert ((checkForReverts fuel p call ctx σ).2) k = some v) ∧
    (∀ (f : FuncId) (ctx : Option ContractId) (flow : FunctionFlow)
      (k0 : RKey) (σ : PrunerState) (k : RKey) (v : RevertEntry),
      ¬ k = k0 → ¬ k = getNormalizedKey p f ctx →
      lookupRevert σ k = some v →
      lookupRevert ((traverseFunctionFlow fuel p f ctx flow
        (.probe k0) σ).2) k = some v) ∧
    (∀ (ctx : Option ContractId) (flow : FunctionFlow) (k0 kt : RKey)
      (q vis pn : List NodeId) (σ : PrunerState) (k : RKey)
      (v : RevertEntry), ¬ k = k0 → ¬ k = kt →
      lookupRevert σ k = some v →
      lookupRevert (bfsStep fuel p ctx flow (.probe k0) kt q vis pn σ) k =
        some v) ∧
    (∀ (ctx : Option ContractId) (flow : FunctionFlow) (k0 : RKey)
      (n : NodeId) (calls : List CallSite) (pend : Bool) (pn : List NodeId)
      (σ : PrunerState) (k : RKey) (v : RevertEntry), ¬ k = k0 →
      lookupRevert σ k = some v →
      lookupRevert
        ((processCalls fuel p ctx flow (.probe k0) n calls pend pn σ).2.2.2)
        k = some v) := by
  intro fuel
  induction fuel with
  | zero =>
    refine ⟨?_, ?_, ?_, ?_⟩
    · intro call ctx σ k v hl
      rw [checkForReverts_zero]
      split <;> exact hl
    · intro f ctx flow k0 σ k v _ _ hl
      exact hl
    · intro ctx flow k0 kt q vis pn σ k v _ _ hl
      exact hl
    · intro ctx flow k0 n calls pend pn σ k v _ hl
      exact hl
  | succ fuel ih =>
    obtain ⟨ihc, iht, ihb, ihp⟩ := ih
    refine ⟨?_, ?_, ?_, ?_⟩
    · intro call ctx σ k v hl
      rw [checkForReverts_succ]
      split
      · exact hl
      · split
        · exact hl
        · split
          · exact hl
          · rename_i fd hres e hlook
            have hkne : ¬ k = getNormalizedKey p fd ctx := by
              intro hh
              rw [hh] at hl
              rw [hl] at hlook
              cases hlook
            refine iht _ _ _ _ _ _ _ hkne hkne ?_
            rw [lookupRevert_setState_ne _ _ _ _ _ hkne]
            exact hl
    · intro f ctx flow k0 σ k v hk0 hkt hl
      rw [traverseFunctionFlow_succ]
      exact ihb _ _ _ _ _ _ _ _ _ _ hk0 hkt
        (lookupRevert_ensureRecord_pres _ _ _ _ hl)
    · intro ctx flow k0 kt q vis pn σ k v hk0 hkt hl
      rw [bfsStep_succ]
      split
      · exact hl
      · rename_i n rest
        split
        · exact ihb _ _ _ _ _ _ _ _ _ _ hk0 hkt hl
        · split
          · refine ihb _ _ _ _ _ _ _ _ _ _ hk0 hkt ?_
            split
            · exact hl
            · rw [lookupRevert_setState_ne _ _ _ _ _ hkt]
              exact hl
          · have hproc :=
              ihp ctx flow k0 n (p.functionCalls n) (decide (n ∈ pn)) pn σ
                k v hk0 hl
            dsimp only
            split
            · exact ihb _ _ _ _ _ _ _ _ _ _ hk0 hkt hproc
            · exact ihb _ _ _ _ _ _ _ _ _ _ hk0 hkt hproc
    · intro ctx flow k0 n calls pend pn σ k v hk0 hl
      rw [processCalls_succ]
      split
      · exact hl
      · rename_i c cs
        have hcheck := ihc c ctx σ k v hl
        have happ := lookupRevert_applyPolicy_probe p k0
          (checkForReverts fuel p c ctx σ).1 n flow _ k v hk0 hcheck
        split
        · exact happ
        · exact ihp _ _ _ _ _ _ _ _ _ _ hk0 happ

theorem lookupRevert_checkForReverts_pres (fuel : Nat) (p : Prog)
    (call : CallSite) (ctx : Option ContractId) (σ : PrunerState) (k : RKey)
    (v : RevertEntry) (hl : lookupRevert σ k = some v) :
    lookupRevert ((checkForReverts fuel p call ctx σ).2) k = some v :=
  (preserve_mutual p fuel).1 call ctx σ k v hl

theorem lookupRevert_finalizeNode_pres (fuel : Nat) (p : Prog) (k2 : RKey)
    (flow : FunctionFlow) (n : NodeId) :
    ∀ (calls : List CallSite) (σ : PrunerState) (k : RKey) (v : RevertEntry),
      lookupRevert σ k = some v →
      lookupRevert (finalizeNode fuel p k2 flow n calls σ) k = some v := by
  intro calls
  induction calls with
  | nil => exact fun σ k v hl => hl
  | cons c cs ihcs =>
    intro σ k v hl
    have hcheck := lookupRevert_checkForReverts_pres fuel p c k2.1 σ k v hl
    unfold finalizeNode
    refine ihcs _ _ _ ?_
    split
    · rw [lookupRevert_rewriteExits]
      exact hcheck
    · rw [lookupRevert_rewriteExits]
      exact hcheck
    · exact hcheck

theorem lookupRevert_finalizeEntry_pres (fuel : Nat) (p : Prog) (k2 : RKey)
    (σ : PrunerState) (k : RKey) (v : RevertEntry)
    (hl : lookupRevert σ k = some v) :
    lookupRevert (finalizeEntry fuel p k2 σ) k = some v := by
  unfold finalizeEntry
  split
  · split
    · exact lookupRevert_finalizeNode_pres _ _ _ _ _ _ _ _ _ hl
    · exact hl
  · exact hl

theorem lookupRevert_promoteEntry_ne (k2 : RKey) (σ : PrunerState)
    (k : RKey) (hne : ¬ k = k2) :
    lookupRevert (promoteEntry k2 σ) k = lookupRevert σ k := by
  unfold promoteEntry
  split
  · split
    · exact lookupRevert_setState_ne _ _ _ _ _ hne
    · rfl
  · rfl

theorem lookupRevert_promoteEntry_nonpending (k2 : RKey) (σ : PrunerState)
    (k : RKey) (e : RevertEntry) (hl : lookupRevert σ k = some e)
    (hnp : ¬ e.state = .Pending) :
    lookupRevert (promoteEntry k2 σ) k = some e := by
  by_cases hkk : k = k2
  · subst hkk
    unfold promoteEntry
    rw [hl]
    dsimp only
    rw [if_neg hnp]
    exact hl
  · rw [lookupRevert_promoteEntry_ne _ _ _ hkk]
    exact hl

theorem lookupRevert_promoteEntry_pending (k : RKey) (σ : PrunerState)
    (e : RevertEntry) (hl : lookupRevert σ k = some e)
    (hp : e.state = .Pending) :
    lookupRevert (promoteEntry k σ) k = some ⟨e.node, .AllPathsRevert⟩ := by
  unfold promoteEntry
  rw [hl]
  dsimp only
  rw [if_pos hp]
  exact lookupRevert_setState_self _ _ _ _ _ hl

theorem finalizeKeys_nonpending_pres (fuel : Nat) (p : Prog) :
    ∀ (ks : List RKey) (σ : PrunerState) (k : RKey) (e : RevertEntry),
      lookupRevert σ k = some e → ¬ e.state = .Pending →
      lookupRevert (finalizeKeys fuel p ks σ) k = some e := by
  intro ks
  induction ks with
  | nil => exact fun σ k e hl _ => hl
  | cons k2 rest ihks =>
    intro σ k e hl hnp
    unfold finalizeKeys
    exact ihks _ _ _
      (lookupRevert_promoteEntry_nonpending k2 _ k e
        (lookupRevert_finalizeEntry_pres fuel p k2 σ k e hl) hnp) hnp

theorem finalizeKeys_promotes (fuel : Nat) (p : Prog) :
    ∀ (ks : List RKey) (σ : PrunerState) (k : RKey) (e : RevertEntry),
      lookupRevert σ k = some e → e.state = .Pending → k ∈ ks →
      ∃ nd, lookupRevert (finalizeKeys fuel p ks σ) k =
        some ⟨nd, .AllPathsRevert⟩ := by
  intro ks
  induction ks with
  | nil => exact fun σ k e _ _ hmem => absurd hmem (List.not_mem_nil k)
  | cons k2 rest ihks =>
    intro σ k e hl hp hmem
    unfold finalizeKeys
    have h1 := lookupRevert_finalizeEntry_pres fuel p k2 σ k e hl
    by_cases hkk : k = k2
    · subst hkk
      refine ⟨e.node, ?_⟩
      exact finalizeKeys_nonpending_pres fuel p rest _ k _
        (lookupRevert_promoteEntry_pending k _ e h1 hp)
        (by intro hh; exact RevertState.noConfusion hh)
    · rcases List.mem_cons.mp hmem with hh | hmem2
      · exact absurd hh hkk
      · refine ihks _ k e ?_ hp hmem2
        rw [lookupRevert_promoteEntry_ne _ _ _ hkk]
        exact h1

theorem mem_keys_of_lookupRevert (σ : PrunerState) (k : RKey)
    (v : RevertEntry) (hl : lookupRevert σ k = some v) :
    k ∈ σ.reverts.map (fun x => x.1) := by
  unfold lookupRevert at hl
  cases hf : σ.reverts.find? (fun x => x.1 = k) with
  | none => rw [hf] at hl; cases hl
  | some x =>
    have hmem := List.mem_of_find?_eq_some hf
    have hpred := List.find?_some hf
    have hx : x.1 = k := by simpa using hpred
    rw [← hx]
    exact List.mem_map_of_mem (fun y => y.1) hmem

theorem removePendingPaths_promotes (fuel : Nat) (p : Prog)
    (σ : PrunerState) (k : RKey) (e : RevertEntry)
    (hl : lookupRevert σ k = some e) (hp : e.state = .Pending) :
    ∃ nd, lookupRevert (removePendingPaths fuel p σ) k =
      some ⟨nd, .AllPathsRevert⟩ :=
  finalizeKeys_promotes fuel p _ σ k e hl hp
    (mem_keys_of_lookupRevert σ k e hl)

/-- C1 (counterexample): the sequence of states a record takes on is not
non-decreasing, and `HasNonRevertingPath` is not final: on `progReinit` the
record of function `1` under contract `0` is probed to
`HasNonRevertingPath` while function `0` is analyzed, and
`removeRevertingPaths` then overwrites it with `Pending` when the driver
reaches function `1` itself. -/
theorem c1_counterexample :
    Event.stateWrite .initPending (some 0, 1) (some .HasNonRevertingPath)
        .Pending ∈ (run 300 progReinit initSt).trace ∧
    ¬ RevertState.Pending = RevertState.HasNonRevertingPath := by
  decide

/-- C2 (counterexample): a remembered `pendingNode` is not rewritten if and
only if its record is finalized as `AllPathsRevert`: on `progPendingNode`
the record of function `0` finalizes `HasNonRevertingPath` (it is never
promoted), yet its remembered node `4` has its exits rewritten from `[7]`
to the single revert-sentinel edge `[5]` by the finalization pass, because
the call on node `4` checks `Pending` there. -/
theorem c2_counterexample :
    lookupRevert (run 300 progPendingNode initSt) (some 0, 0) =
      some ⟨some 4, .HasNonRevertingPath⟩ ∧
    getExits progPendingNode (run 300 progPendingNode initSt) 4 = [5] ∧
    progPendingNode.initExits 4 = [7] ∧
    (progPendingNode.flowOf (some 0, 0)).revert = 5 ∧
    ¬ RevertState.HasNonRevertingPath = RevertState.AllPathsRevert := by
  decide

/-- C3 (counterexample): reaching a single exit via a non-pending-tainted
path during a probing traversal is not sufficient for a final
`HasNonRevertingPath` classification: on `progProbeOrder`, probing function
`1` while function `0` is `Pending` visits the exit untainted and records
`HasNonRevertingPath`, but a `Pending` sub-call checked afterwards
overwrites the classification, and `checkForReverts` returns `Pending`. -/
theorem c3_counterexample :
    (checkForReverts 300 progProbeOrder (staticCall 1) (some 0)
        (setState .initPending (some 0, 0) .Pending initSt)).1 =
      .Pending ∧
    Event.stateWrite .exitNonRevert (some 0, 1) (some .AllPathsRevert)
        .HasNonRevertingPath ∈
      (checkForReverts 300 progProbeOrder (staticCall 1) (some 0)
        (setState .initPending (some 0, 0) .Pending initSt)).2.trace ∧
    ¬ RevertState.Pending = RevertState.HasNonRevertingPath := by
  decide

/-- C3 (amended): during a probing traversal a `Pending` sub-call downgrades
the in-progress classification to `Pending` while the traversal keeps
scanning other branches, and the final classification is the last write: on
`progProbeOrderLate` the downgrade is checked first and an exit visited
untainted afterwards makes the returned classification
`HasNonRevertingPath`, as the recorded write sequence shows. -/
theorem c3_amended_last_write :
    (checkForReverts 300 progProbeOrderLate (staticCall 1) (some 0)
        (setState .initPending (some 0, 0) .Pending initSt)).1 =
      .HasNonRevertingPath ∧
    (checkForReverts 300 progProbeOrderLate (staticCall 1) (some 0)
        (setState .initPending (some 0, 0) .Pending initSt)).2.trace =
      [.stateWrite .initPending (some 0, 0) none .Pending,
       .stateWrite .seedAllPaths (some 0, 1) none .AllPathsRevert,
       .stateWrite .probeDowngrade (some 0, 1) (some .AllPathsRevert) .Pending,
       .stateWrite .exitNonRevert (some 0, 1) (some .Pending)
         .HasNonRevertingPath] := by
  decide

/-- C7: on the mutually recursive program `progMutual` (`f = 0` calls
`g = 1`, `g` calls `f`, no other path to either exit), after the full
two-pass run both records finalize `AllPathsRevert` and both remembered
call-site nodes have their exit lists rewritten to the single
revert-sentinel edge of their owning function. -/
theorem c7_mutual_recursion :
    lookupRevert (run 200 progMutual initSt) (some 0, 0) =
      some ⟨some 1, .AllPathsRevert⟩ ∧
    lookupRevert (run 200 progMutual initSt) (some 0, 1) =
      some ⟨some 5, .AllPathsRevert⟩ ∧
    getExits progMutual (run 200 progMutual initSt) 1 = [3] ∧
    getExits progMutual (run 200 progMutual initSt) 5 = [7] ∧
    (progMutual.flowOf (some 0, 0)).revert = 3 ∧
    (progMutual.flowOf (some 0, 1)).revert = 7 := by
  decide

/-- C8: on `progBranch` (function `0` branches to node `1`, which calls the
always-reverting function `1`, and to node `2`, which returns normally),
the record of function `0` finalizes `HasNonRevertingPath`, node `1`'s
exits are rewritten to the single revert-sentinel edge, and no other node's
edges are touched: the run's only edge rewrite is the one of node `1`, and
the entry and the non-reverting branch keep their initial edges. -/
theorem c8_branching_preserved :
    stateD (run 300 progBranch initSt) (some 0, 0) = .HasNonRevertingPath ∧
    getExits progBranch (run 300 progBranch initSt) 1 = [4] ∧
    getExits progBranch (run 300 progBranch initSt) 0 = [1, 2] ∧
    getExits progBranch (run 300 progBranch initSt) 2 = [3] ∧
    (run 300 progBranch initSt).trace.filter isExitsWrite =
      [.exitsWrite (some 0, 0) 1 [3] [4]] := by
  decide

/-- C9 (counterexample): running the pruner a second time over the edge
lists its first run produced performs further edge mutation: on
`progTwoRuns` the first run leaves node `1` with its initial exits `[2]`,
but a second run over the first run's output rewrites node `1` to the
revert-sentinel edge `[3]`. -/
theorem c9_counterexample :
    getExits progTwoRuns (run 400 progTwoRuns initSt) 1 = [2] ∧
    getExits progTwoRuns
      (run 400 progTwoRuns (resetStore (run 400 progTwoRuns initSt))) 1 =
      [3] ∧
    ¬ ([2] : List NodeId) = [3] := by
  decide

/-- C9 (amended): a second run may rewrite additional nodes (those whose
calls' classifications change once a `HasNonRevertingPath` record's
remembered node has been collapsed), but no rewrite is undone on
`progTwoRuns`: nodes `5` and `13`, collapsed by the first run, keep exactly
their single revert-sentinel edge after the second run, and a third run
reproduces the second run's edge lists on every node. -/
theorem c9_amended_stable :
    getExits progTwoRuns (run 400 progTwoRuns initSt) 5 = [7] ∧
    getExits progTwoRuns (run 400 progTwoRuns initSt) 13 = [15] ∧
    getExits progTwoRuns
      (run 400 progTwoRuns (resetStore (run 400 progTwoRuns initSt))) 5 =
      [7] ∧
    getExits progTwoRuns
      (run 400 progTwoRuns (resetStore (run 400 progTwoRuns initSt))) 13 =
      [15] ∧
    (run 400 progTwoRuns (resetStore (run 400 progTwoRuns
      (resetStore (run 400 progTwoRuns initSt))))).exitsMap =
    (run 400 progTwoRuns (resetStore (run 400 progTwoRuns
      initSt))).exitsMap := by
  decide

/-- C10: a call site whose annotated function type carries no declaration
makes `checkForReverts` return `HasNonRevertingPath` immediately with the
state untouched — no record is created and no edge is mutated — for every
fuel, program, call, context and state. -/
theorem c10_no_declaration (fuel : Nat) (p : Prog) (call : CallSite)
    (ctx : Option ContractId) (σ : PrunerState)
    (h : call.hasDeclaration = false) :
    checkForReverts fuel p call ctx σ = (.HasNonRevertingPath, σ) := by
  cases fuel <;> simp [checkForReverts, h]

/-- C10 (witness): a concrete declaration-less call returns
`HasNonRevertingPath` and leaves the initial state unchanged. -/
theorem c10_no_declaration_witness :
    checkForReverts 5 progMutual ⟨false, 0, .identifier⟩ (some 0) initSt =
      (.HasNonRevertingPath, initSt) :=
  c10_no_declaration 5 progMutual ⟨false, 0, .identifier⟩ (some 0) initSt
    (by decide)

/-- C5: `ResolveFunction.resolve` returns, for a statically looked-up
member access, the referenced declaration itself with no dispatch; for an
`Identifier` call, the most-derived override from the calling contract's
linearized base list (`resolveVirtual` searched from the front); and for an
explicit super-call, the implementation resolved starting from the next
base contract after the calling contract in the linearization
(`superContract` followed by `resolveVirtual` from there) — illustrated on
the hierarchy `progHierarchy`, where the base function `0` resolves to the
middle contract's override `1` under the derived context, to itself under
the base context, and super-calls step past the calling contract. -/
theorem c5_resolve :
    (∀ (p : Prog) (call : CallSite) (ctx r : Option ContractId),
      call.expr = .memberAccess .Static r →
      resolveFunction p call ctx = some call.declaration) ∧
    (∀ (p : Prog) (call : CallSite) (c : ContractId),
      call.expr = .identifier →
      resolveFunction p call (some c) =
        resolveVirtual p call.declaration c none) ∧
    (∀ (p : Prog) (call : CallSite) (c sr sc : ContractId),
      call.expr = .memberAccess .Super (some sr) →
      superContract p sr c = some sc →
      resolveFunction p call (some c) =
        resolveVirtual p call.declaration c (some sc)) ∧
    resolveFunction progHierarchy ⟨true, 0, .identifier⟩ (some 3) = some 1 ∧
    resolveFunction progHierarchy ⟨true, 0, .identifier⟩ (some 1) = some 0 ∧
    superContract progHierarchy 3 3 = some 2 ∧
    resolveFunction progHierarchy ⟨true, 0, .memberAccess .Super (some 3)⟩
      (some 3) = some 1 ∧
    resolveFunction progHierarchy ⟨true, 1, .memberAccess .Super (some 2)⟩
      (some 2) = some 0 := by
  refine ⟨?_, ?_, ?_, by decide, by decide, by decide, by decide, by decide⟩
  · intro p call ctx r h
    simp [resolveFunction, h]
  · intro p call c h
    simp [resolveFunction, h]
  · intro p call c sr sc h hs
    simp [resolveFunction, h, hs]

/-- C5 (witness): the three dispatch clauses applied at concrete inputs of
`progHierarchy`: a static member access returns its declaration, an
identifier call resolves virtually under the derived contract, and a
super-call resolves from the next base contract. -/
theorem c5_resolve_witness :
    resolveFunction progHierarchy ⟨true, 0, .memberAccess .Static none⟩
        (some 3) = some 0 ∧
    resolveFunction progHierarchy ⟨true, 0, .identifier⟩ (some 3) =
      resolveVirtual progHierarchy 0 3 none ∧
    resolveFunction progHierarchy ⟨true, 0, .memberAccess .Super (some 3)⟩
        (some 3) = resolveVirtual progHierarchy 0 3 (some 2) :=
  ⟨c5_resolve.1 progHierarchy ⟨true, 0, .memberAccess .Static none⟩
      (some 3) none rfl,
   c5_resolve.2.1 progHierarchy ⟨true, 0, .identifier⟩ 3 rfl,
   c5_resolve.2.2.1 progHierarchy ⟨true, 0, .memberAccess .Super (some 3)⟩
      3 3 2 rfl (by decide)⟩

/-- C6: `getNormalizedKey` maps a free function to `(null, function)`, a
function declared in a library to `(library, function)` for every calling
contract (so all callers share one record and, as the run of `progLibShare`
shows, the shared record is seeded — hence traversed — exactly once), and
any other member function to `(calling contract, function)`, so two
distinct calling contracts get two distinct records. -/
theorem c6_normalized_key :
    (∀ (p : Prog) (f : FuncId) (ctx : Option ContractId),
      (p.funcs f).isFree = true → getNormalizedKey p f ctx = (none, f)) ∧
    (∀ (p : Prog) (f : FuncId) (ctx1 ctx2 : Option ContractId)
      (dc : ContractId),
      (p.funcs f).isFree = false → (p.funcs f).contract = some dc →
      (contractInfo p dc).isLibrary = true →
      getNormalizedKey p f ctx1 = (some dc, f) ∧
      getNormalizedKey p f ctx1 = getNormalizedKey p f ctx2) ∧
    (∀ (p : Prog) (f : FuncId) (ctx : Option ContractId) (dc : ContractId),
      (p.funcs f).isFree = false → (p.funcs f).contract = some dc →
      (contractInfo p dc).isLibrary = false →
      getNormalizedKey p f ctx = (ctx, f)) ∧
    (∀ (p : Prog) (f : FuncId) (c1 c2 dc : ContractId),
      (p.funcs f).isFree = false → (p.funcs f).contract = some dc →
      (contractInfo p dc).isLibrary = false → ¬ c1 = c2 →
      ¬ getNormalizedKey p f (some c1) = getNormalizedKey p f (some c2)) ∧
    ((run 300 progLibShare initSt).reverts.filter
      (fun x => x.1 = ((some 3, 2) : RKey))).length = 1 ∧
    ((run 300 progLibShare initSt).trace.filter
      (fun e =>
        match e with
        | .stateWrite .seedAllPaths k _ _ => k = ((some 3, 2) : RKey)
        | _ => false)).length = 1 := by
  refine ⟨?_, ?_, ?_, ?_, by decide, by decide⟩
  · intro p f ctx h
    simp [getNormalizedKey, h]
  · intro p f ctx1 ctx2 dc h hc hl
    simp [getNormalizedKey, h, hc, hl]
  · intro p f ctx dc h hc hl
    simp [getNormalizedKey, h, hc, hl]
  · intro p f c1 c2 dc h hc hl hne
    simp [getNormalizedKey, h, hc, hl]
    exact fun hcc => hne hcc

/-- C2 (amended): the finalization pass promotes to `AllPathsRevert` every
record that exists when a state is observed `Pending` — on every program
and every state, a record looked up `Pending` before `removePendingPaths`
ends up `AllPathsRevert` afterwards; but a remembered `pendingNode`'s exits
are rewritten according to what the node's calls check to at finalization
time, not if and only if the record itself finalizes `AllPathsRevert`: on
`progPendingNode` the record of function `0` finalizes
`HasNonRevertingPath` and its remembered node `4` is rewritten anyway. -/
theorem c2_amended_finalization :
    (∀ (fuel : Nat) (p : Prog) (σ : PrunerState) (k : RKey)
      (e : RevertEntry), lookupRevert σ k = some e → e.state = .Pending →
      ∃ nd, lookupRevert (removePendingPaths fuel p σ) k =
        some ⟨nd, .AllPathsRevert⟩) ∧
    (getExits progPendingNode (run 300 progPendingNode initSt) 4 = [5] ∧
     lookupRevert (run 300 progPendingNode initSt) (some 0, 0) =
       some ⟨some 4, .HasNonRevertingPath⟩) := by
  refine ⟨?_, by decide⟩
  intro fuel p σ k e hl hp
  exact removePendingPaths_promotes fuel p σ k e hl hp

/-- C2 (amended, witness): the promotion clause applied at a concrete
state holding one `Pending` record: after the finalization pass the record
is `AllPathsRevert`. -/
theorem c2_amended_finalization_witness :
    ∃ nd, lookupRevert
      (removePendingPaths 50 progMutual
        (setState .initPending (some 0, 0) .Pending initSt)) (some 0, 0) =
      some ⟨nd, .AllPathsRevert⟩ :=
  c2_amended_finalization.1 50 progMutual
    (setState .initPending (some 0, 0) .Pending initSt) (some 0, 0)
    ⟨none, .Pending⟩ (by decide) (by decide)

/-- C6 (witness): the key clauses applied at concrete inputs of
`progLibShare`: the library function `2` is keyed with the library `3`
whichever contract calls it, and the member function `0` is keyed with its
calling contract. -/
theorem c6_normalized_key_witness :
    getNormalizedKey progLibShare 2 (some 1) = (some 3, 2) ∧
    getNormalizedKey progLibShare 2 (some 1) =
      getNormalizedKey progLibShare 2 (some 2) ∧
    getNormalizedKey progLibShare 0 (some 1) = (some 1, 0) :=
  ⟨(c6_normalized_key.2.1 progLibShare 2 (some 1) (some 2) 3 (by decide)
      (by decide) (by decide)).1,
   (c6_normalized_key.2.1 progLibShare 2 (some 1) (some 2) 3 (by decide)
      (by decide) (by decide)).2,
   c6_normalized_key.2.2.1 progLibShare 0 (some 1) 1 (by decide) (by decide)
      (by decide)⟩

end RevertPruner




